import Mathlib

/-!
# Cursor pagination of the comment listing (`GetComments`)

A shallow embedding of `internal/models/storiesstore/mongo/comment.go`
(`GetComments`) and of `internal/graphql/schema/commentresolver.go`
(`NewComment`, `NewCommentsConnection`), followed by theorems about them.

Conventions of the embedding

* Go `int64` / `int` values are integers; every arithmetic step the source
  performs on `limit` is reduced with `wrap64` (two's complement, 64 bit).
* `len(comments)` is a natural number (a slice length always fits in `int`).
* A Go pointer that may be `nil` is an `Option`.
* `time.Time` is an instant on a discrete time line (`Int`).
* The helpers the source calls but does not define (`utils.*`, `cursor.*`)
  and the Mongo collection are fields of `Deps`; the theorems quantify over
  them, and a spec-modelled instance is used for concrete runs.
-/

namespace Backend

/-! ## Data model -/

/-- Instants of `time.Time`, totally ordered. -/
abbrev Time := Int

/-- Record `storiesstore.Comment`, with the fields the sources read
(`commentresolver.go` lines 28-33, `CreateCommentInput.ToModel` line 63). -/
structure Comment where
  AbstractContent : String
  ContentJson : String
  CreatedBy : String
  Id : String
  StoryID : String
  TimeCreated : Time
  TimeUpdated : Time
deriving DecidableEq, Repr

/-- Record `storiesstore.Story`; `GetComments` reads only `story.Id`. -/
structure Story where
  Id : String
deriving DecidableEq, Repr

/-- Value `cursor.Cursor`; `GetComments` reads `c.ID` and `c.TimeStamp`. -/
structure Cursor where
  ID : String
  TimeStamp : Time
deriving DecidableEq, Repr

/-- One call on the `mongoqb` query builder, as issued by `GetComments`. -/
inductive Clause where
  /-- Call `qb.In("_id", ids)` -/
  | idIn (ids : List String)
  /-- Call `qb.Eq("story_id", id)` -/
  | storyIdEq (id : String)
  /-- Call `qb.Lte("time_created", t)` -/
  | timeCreatedLte (t : Time)
  /-- Call `qb.Lte("_id", id)` -/
  | idLte (id : String)
  /-- Call `qb.Gte("time_created", t)` -/
  | timeCreatedGte (t : Time)
  /-- Call `qb.Gte("_id", id)` -/
  | idGte (id : String)
deriving DecidableEq, Repr

/-- The built query: the conjunction of the builder calls, in call order. -/
abbrev Query := List Clause

/-- The value handed to the driver as `Sort`, reduced to the direction of the
`(time_created, _id)` ordering. -/
inductive SortOrder where
  | ascending
  | descending
deriving DecidableEq, Repr

/-- Struct `options.FindOptions`, with the two fields `GetComments` sets
(`SortDoc` is the field `Sort`, a reserved word here). -/
structure FindOptions where
  Limit : Int
  SortDoc : SortOrder
deriving DecidableEq, Repr

/-- An error value returned by the Mongo driver. -/
abbrev StoreError := String

/-- The collaborators of `GetComments` that are not defined in its file. -/
structure Deps where
  /-- Helper `utils.GetLimitAndSortOrderAndCursor(first, last, after, before)`,
  returning `(limit, order, cursorStr)`. -/
  GetLimitAndSortOrderAndCursor :
    Option Int → Option Int → Option String → Option String → Int × Int × Option String
  /-- Helper `utils.GetSortOrder(order)`. -/
  GetSortOrder : Int → SortOrder
  /-- Decoder `cursor.FromString(token)`; `none` is the `nil` pointer. -/
  FromString : String → Option Cursor
  /-- Encoder `cursor.NewCursor(id, timeCreated).String()`. -/
  NewCursorString : String → Time → String
  /-- The range read `Find(ctx, qb.Build(), options)` followed by
  `mongoCursor.All(ctx, &comments)`: the fetched records, or the error of
  either call. -/
  Find : Query → FindOptions → Except StoreError (List Comment)

/-- The six values `GetComments` returns. -/
structure Result where
  comments : List Comment
  hasNextPage : Bool
  hasPreviousPage : Bool
  firstCursor : String
  lastCursor : String
  err : Option StoreError
deriving DecidableEq, Repr

/-- How a call of `GetComments` ends: it returns, or the slice expression
`comments[:limit-2]` panics (slice bounds out of range). -/
inductive Outcome where
  | returned (r : Result)
  | panicked
deriving DecidableEq, Repr

/-! ## `GetComments` -/

/-- Two's complement reduction of an integer to the `int64` range. -/
def wrap64 (x : Int) : Int :=
  (x + 9223372036854775808) % 18446744073709551616 - 9223372036854775808

/-- Lines 70-73: `c` is `nil` when no token was resolved, else the decoded token. -/
def decodeCursor (d : Deps) (cursorStr : Option String) : Option Cursor :=
  match cursorStr with
  | some s => d.FromString s
  | none => none

/-- Lines 61-67 and 73-81: the filter built on `qb`. -/
def buildQuery (ids : List String) (story : Option Story) (order : Int)
    (c : Option Cursor) : Query :=
  let qb : Query := []
  let qb := if ids.length > 0 then qb ++ [Clause.idIn ids] else qb
  let qb := match story with
    | some s => qb ++ [Clause.storyIdEq s.Id]
    | none => qb
  match c with
  | some c =>
    if order = 1 then qb ++ [Clause.timeCreatedLte c.TimeStamp, Clause.idLte c.ID]
    else qb ++ [Clause.timeCreatedGte c.TimeStamp, Clause.idGte c.ID]
  | none => qb

/-- Lines 61-102: the single range read `GetComments` issues, with the
limit raised by two and the sort order of the resolved direction. -/
def rangeRead (d : Deps) (ids : List String) (story : Option Story)
    (after before : Option String) (first last : Option Int) :
    Except StoreError (List Comment) :=
  let r := d.GetLimitAndSortOrderAndCursor first last after before
  let order := r.2.1
  let c := decodeCursor d r.2.2
  let limit := wrap64 (r.1 + 2)
  d.Find (buildQuery ids story order c) ⟨limit, d.GetSortOrder order⟩

/-- Lines 108-113: when a cursor was decoded and the first fetched record has
its id, set `hasPreviousPage` and drop that record. Returns
`(hasPreviousPage, comments)`. -/
def dropBoundary (c : Option Cursor) (comments : List Comment) : Bool × List Comment :=
  match c, comments with
  | some c, x :: rest => if x.Id = c.ID then (true, rest) else (false, x :: rest)
  | _, _ => (false, comments)

/-- Lines 115-120, with `limit` already raised by two: when
`count >= int(limit)-1`, set `hasNextPage` and slice `comments[:limit-2]`.
Returns `(hasNextPage, comments)`, or `none` when the slice expression panics:
its index is negative or lies beyond the slice. An index between the length
and the capacity of the slice cannot arise: past the guard the only index
above the length is `2^63 - 1` (`trimToLimit_panic_index`). -/
def trimToLimit (limit : Int) (comments : List Comment) : Option (Bool × List Comment) :=
  if wrap64 (limit - 1) ≤ (comments.length : Int) then
    if 0 ≤ wrap64 (limit - 2) ∧ wrap64 (limit - 2) ≤ (comments.length : Int) then
      some (true, comments.take (wrap64 (limit - 2)).toNat)
    else none
  else some (false, comments)

/-- Lines 122-125: `(firstCursor, lastCursor)` of the trimmed records, with
`enc id t` standing for `cursor.NewCursor(id, t).String()`. -/
def pageCursors (enc : String → Time → String) (comments : List Comment) : String × String :=
  match comments.head?, comments.getLast? with
  | some f, some l => (enc f.Id f.TimeCreated, enc l.Id l.TimeCreated)
  | _, _ => ("", "")

/-- Lines 103-130: what `GetComments` does with the fetched records. -/
def finishPage (enc : String → Time → String) (limit order : Int) (c : Option Cursor)
    (comments : List Comment) : Outcome :=
  if comments.length = 0 then
    .returned ⟨comments, false, false, "", "", none⟩
  else
    let dropped := dropBoundary c comments
    match trimToLimit limit dropped.2 with
    | none => .panicked
    | some trimmed =>
      let cursors := pageCursors enc trimmed.2
      if order < 0 then
        .returned ⟨trimmed.2, dropped.1, trimmed.1, cursors.2, cursors.1, none⟩
      else
        .returned ⟨trimmed.2, trimmed.1, dropped.1, cursors.1, cursors.2, none⟩

/-- Method `GetComments` of `comment.go` (lines 45-131). -/
def GetComments (d : Deps) (ids : List String) (story : Option Story)
    (after before : Option String) (first last : Option Int) : Outcome :=
  let r := d.GetLimitAndSortOrderAndCursor first last after before
  let order := r.2.1
  let c := decodeCursor d r.2.2
  let limit := wrap64 (r.1 + 2)
  match rangeRead d ids story after before first last with
  | .error e => .returned ⟨[], false, false, "", "", some e⟩
  | .ok comments => finishPage d.NewCursorString limit order c comments

/-! ## `commentresolver.go` -/

namespace Schema

/-- Struct `schema.Comment` (lines 12-20); `graphql.Time` wraps a `time.Time`. -/
structure Comment where
  ref : Backend.Comment
  AbstractContent : String
  ContentJson : String
  createdBy : String
  Id : String
  TimeCreated : Time
  TimeUpdated : Time
deriving DecidableEq, Repr

/-- Function `NewComment` (lines 22-35). -/
def NewComment (m : Option Backend.Comment) : Option Comment :=
  match m with
  | none => none
  | some m => some
    { ref := m
      AbstractContent := m.AbstractContent
      ContentJson := m.ContentJson
      createdBy := m.CreatedBy
      Id := m.Id
      TimeCreated := m.TimeCreated
      TimeUpdated := m.TimeUpdated }

/-- Struct `CommentEdge` (lines 114-117). -/
structure CommentEdge where
  Node : Option Comment
  Cursor : String
deriving DecidableEq, Repr

/-- Struct `PageInfo`, with the fields `NewCommentsConnection` fills. -/
structure PageInfo where
  HasNextPage : Bool
  HasPreviousPage : Bool
  StartCursor : Option String
  EndCursor : Option String
deriving DecidableEq, Repr

/-- Struct `CommentsConnection` (lines 82-85). -/
structure CommentsConnection where
  Edges : List CommentEdge
  PageInfo : PageInfo
deriving DecidableEq, Repr

/-- Function `NewCommentsConnection` (lines 87-112), with `enc id t` standing
for `cursor.NewCursor(id, t).String()`. The loop appends one edge per record. -/
def NewCommentsConnection (enc : String → Time → String) (data : List Backend.Comment)
    (hasNextPage hasPreviousPage : Bool) (firstCursor lastCursor : Option String) :
    CommentsConnection :=
  { Edges := data.foldl
      (fun edges d => edges ++ [⟨NewComment (some d), enc d.Id d.TimeCreated⟩]) []
    PageInfo :=
      { HasNextPage := hasNextPage
        HasPreviousPage := hasPreviousPage
        StartCursor := firstCursor
        EndCursor := lastCursor } }

/-- The connection a resolver builds from the values `GetComments` returned,
passing the two cursor strings by address. -/
def connectionOf (enc : String → Time → String) (r : Result) : CommentsConnection :=
  NewCommentsConnection enc r.comments r.hasNextPage r.hasPreviousPage
    (some r.firstCursor) (some r.lastCursor)

end Schema

/-! ## Spec-modelled collaborators

The packages `utils` and `cursor` and the Mongo collection are not among the
sources. The definitions below follow the specification and are used for
concrete runs of `GetComments`. -/

/-- Modelled from the spec: `utils.GetLimitAndSortOrderAndCursor` is missing
from the sources. Section 4.1 steps 1-2: with `first` set the request is
forward, the limit is `first` and the cursor is `after`; with `last` set it is
backward, the limit is `last` and the cursor is `before`. The order value is
`1` forward and `-1` backward (the source tests `order == 1` and `order < 0`).
The spec leaves open what happens with both or neither set; here `first` wins
and an absent page size gives limit `0` without cursor. -/
def GetLimitAndSortOrderAndCursor (first last : Option Int)
    (after before : Option String) : Int × Int × Option String :=
  match first, last with
  | some n, _ => (n, 1, after)
  | none, some n => (n, -1, before)
  | none, none => (0, 1, none)

/-- Modelled from the spec: `utils.GetSortOrder` is missing from the sources.
Section 4.1 step 1: ascending by `(timestamp, id)` for a forward request,
descending for a backward one. -/
def GetSortOrder (order : Int) : SortOrder :=
  if order < 0 then .descending else .ascending

/-- Decimal digits of an instant, with a leading minus sign when negative. -/
def timeDigits (t : Time) : List Char :=
  if t < 0 then '-' :: Nat.toDigits 10 t.natAbs else Nat.toDigits 10 t.toNat

/-- Value of a non-empty string of decimal digits. -/
def digitsValue (cs : List Char) : Option Nat :=
  if cs = [] then none
  else cs.foldl
    (fun acc ch => acc.bind (fun n => if ch.isDigit then some (10 * n + (ch.toNat - 48)) else none))
    (some 0)

/-- Modelled from the spec: package `cursor` is missing from the sources.
Section 6: `encode(id, timestamp) -> string`, lossless and stable. The token is
the decimal timestamp, a bar, then the id. -/
def NewCursorString (id : String) (t : Time) : String :=
  String.mk (timeDigits t ++ '|' :: id.toList)

/-- Modelled from the spec: package `cursor` is missing from the sources.
Section 6: `decode(token) -> (id, timestamp) or DecodeError`; the source
receives a pointer, `nil` (here `none`) when the token does not decode. -/
def FromString (token : String) : Option Cursor :=
  let cs := token.toList
  match cs.dropWhile (fun ch => ch != '|') with
  | [] => none
  | _ :: idChars =>
    match cs.takeWhile (fun ch => ch != '|') with
    | '-' :: ds => (digitsValue ds).map (fun n => ⟨String.mk idChars, -(n : Int)⟩)
    | ds => (digitsValue ds).map (fun n => ⟨String.mk idChars, (n : Int)⟩)

/-- The lexicographic order of ids, by their characters. -/
def idLE (a b : String) : Prop := a.toList ≤ b.toList

instance idLE.decidable : DecidableRel idLE :=
  fun a b => inferInstanceAs (Decidable (a.toList ≤ b.toList))

/-- Whether a record satisfies one clause of the filter. -/
def Clause.holds (cl : Clause) (c : Comment) : Bool :=
  match cl with
  | .idIn ids => decide (c.Id ∈ ids)
  | .storyIdEq id => decide (c.StoryID = id)
  | .timeCreatedLte t => decide (c.TimeCreated ≤ t)
  | .idLte id => decide (idLE c.Id id)
  | .timeCreatedGte t => decide (t ≤ c.TimeCreated)
  | .idGte id => decide (idLE id c.Id)

/-- The `(time_created, _id)` ordering of records. -/
def keyLE (a b : Comment) : Prop :=
  a.TimeCreated < b.TimeCreated ∨ (a.TimeCreated = b.TimeCreated ∧ idLE a.Id b.Id)

instance keyLE.decidable : DecidableRel keyLE :=
  fun a b => inferInstanceAs
    (Decidable (a.TimeCreated < b.TimeCreated ∨ (a.TimeCreated = b.TimeCreated ∧ idLE a.Id b.Id)))

/-- Records sorted by `(time_created, _id)` in the given direction. -/
def sortComments (o : SortOrder) (l : List Comment) : List Comment :=
  match o with
  | .ascending => l.insertionSort keyLE
  | .descending => l.insertionSort (fun a b => keyLE b a)

/-- The driver's limit: `0` is no limit, a negative limit counts by its
absolute value. -/
def applyLimit (limit : Int) (l : List Comment) : List Comment :=
  if limit = 0 then l else l.take limit.natAbs

/-- Modelled from the spec: the Mongo collection is external. Section 6:
`rangeQuery(filter, sortKey, sortDirection, limit)` returns the records in the
exact sort order requested, honouring the filter and limit exactly, over a
static set `records`; it never fails. -/
def exactFind (records : List Comment) (q : Query) (o : FindOptions) :
    Except StoreError (List Comment) :=
  .ok (applyLimit o.Limit
    (sortComments o.SortDoc (records.filter (fun c => q.all (fun cl => cl.holds c)))))

/-- The spec-modelled collaborators over a static record set. -/
def specDeps (records : List Comment) : Deps where
  GetLimitAndSortOrderAndCursor := GetLimitAndSortOrderAndCursor
  GetSortOrder := GetSortOrder
  FromString := FromString
  NewCursorString := NewCursorString
  Find := exactFind records

/-- The other possible reading of the missing `utils.GetSortOrder`: newest
first for a forward request, oldest first for a backward one. -/
def GetSortOrderReversed (order : Int) : SortOrder :=
  if order < 0 then .ascending else .descending

/-- The spec-modelled collaborators with the sort direction reversed. -/
def reversedDeps (records : List Comment) : Deps :=
  { specDeps records with GetSortOrder := GetSortOrderReversed }

/-- A comment with the given id and creation time, for story `s1`. -/
def mkComment (id : String) (t : Time) : Comment :=
  ⟨"", "", "", id, "s1", t, t⟩

/-- The scenario of the specification: ids `a..e`, times `1 < ... < 5`. -/
def scenario : List Comment :=
  [mkComment "a" 1, mkComment "b" 2, mkComment "c" 3, mkComment "d" 4, mkComment "e" 5]

/-- The records a call hands back; a panicking call hands back none. -/
def Outcome.records (o : Outcome) : List Comment :=
  match o with
  | .returned r => r.comments
  | .panicked => []

/-- The flag of the side the boundary cursor lies on: `hasPreviousPage` for a
forward request, `hasNextPage` for a backward one (`order < 0`). -/
def Result.pageBehind (order : Int) (r : Result) : Bool :=
  if order < 0 then r.hasNextPage else r.hasPreviousPage

/-! ## Arithmetic of `limit` -/

theorem wrap64_of_int64 (x : Int) (hlo : -9223372036854775808 ≤ x)
    (hhi : x < 9223372036854775808) : wrap64 x = x := by
  unfold wrap64
  omega

theorem wrap64_limit_sub_one (N : Int) (h0 : 0 ≤ N) (hhi : N + 2 < 9223372036854775808) :
    wrap64 (wrap64 (N + 2) - 1) = N + 1 := by
  unfold wrap64
  omega

theorem wrap64_limit_sub_two (N : Int) (h0 : 0 ≤ N) (hhi : N < 9223372036854775808) :
    wrap64 (wrap64 (N + 2) - 2) = N := by
  unfold wrap64
  omega

/-! ## The steps of `GetComments` -/

theorem GetComments_eq_finishPage (d : Deps) (ids : List String) (story : Option Story)
    (after before : Option String) (first last : Option Int) (fetched : List Comment)
    (hfind : rangeRead d ids story after before first last = .ok fetched) :
    GetComments d ids story after before first last =
      finishPage d.NewCursorString
        (wrap64 ((d.GetLimitAndSortOrderAndCursor first last after before).1 + 2))
        (d.GetLimitAndSortOrderAndCursor first last after before).2.1
        (decodeCursor d (d.GetLimitAndSortOrderAndCursor first last after before).2.2) fetched := by
  simp only [GetComments, hfind]

theorem GetComments_of_error (d : Deps) (ids : List String) (story : Option Story)
    (after before : Option String) (first last : Option Int) (e : StoreError)
    (hfind : rangeRead d ids story after before first last = .error e) :
    GetComments d ids story after before first last =
      .returned ⟨[], false, false, "", "", some e⟩ := by
  simp only [GetComments, hfind]

theorem dropBoundary_length_le (c : Option Cursor) (l : List Comment) :
    (dropBoundary c l).2.length ≤ l.length := by
  unfold dropBoundary
  split
  · split <;> simp
  · simp

/-- Without overflow of `limit + 2` the trim never panics: it keeps the first
`N` records when more than `N` are there, and everything otherwise. -/
theorem trimToLimit_of_fits (N : Int) (l : List Comment) (h0 : 0 ≤ N)
    (hhi : N + 2 < 9223372036854775808) :
    trimToLimit (wrap64 (N + 2)) l =
      if N + 1 ≤ (l.length : Int) then some (true, l.take N.toNat) else some (false, l) := by
  unfold trimToLimit
  rw [wrap64_limit_sub_one N h0 hhi, wrap64_limit_sub_two N h0 (by omega)]
  by_cases h : N + 1 ≤ (l.length : Int)
  · have h2 : 0 ≤ N ∧ N ≤ (l.length : Int) := ⟨h0, by omega⟩
    simp [h, h2]
  · simp [h]

/-- Whatever the page size in the `int64` range, a trim that does not panic
leaves at most `N` records. -/
theorem trimToLimit_length_le (N : Int) (l : List Comment) (p : Bool × List Comment)
    (h0 : 0 ≤ N) (hhi : N < 9223372036854775808)
    (h : trimToLimit (wrap64 (N + 2)) l = some p) : (p.2.length : Int) ≤ N := by
  unfold trimToLimit at h
  rw [wrap64_limit_sub_two N h0 hhi] at h
  split at h
  · split at h
    · cases h
      simp only [List.length_take]
      omega
    · cases h
  · cases h
    rename_i hlt
    show (l.length : Int) ≤ N
    unfold wrap64 at hlt
    omega

theorem finishPage_of_trim (enc : String → Time → String) (limit order : Int) (c : Option Cursor)
    (fetched : List Comment) (t : Bool × List Comment) (hne : fetched.length ≠ 0)
    (ht : trimToLimit limit (dropBoundary c fetched).2 = some t) :
    finishPage enc limit order c fetched =
      if order < 0 then
        .returned ⟨t.2, (dropBoundary c fetched).1, t.1,
          (pageCursors enc t.2).2, (pageCursors enc t.2).1, none⟩
      else
        .returned ⟨t.2, t.1, (dropBoundary c fetched).1,
          (pageCursors enc t.2).1, (pageCursors enc t.2).2, none⟩ := by
  simp only [finishPage, hne, if_false, ht]

theorem finishPage_of_panic (enc : String → Time → String) (limit order : Int) (c : Option Cursor)
    (fetched : List Comment) (hne : fetched.length ≠ 0)
    (ht : trimToLimit limit (dropBoundary c fetched).2 = none) :
    finishPage enc limit order c fetched = .panicked := by
  simp only [finishPage, hne, if_false, ht]

theorem finishPage_of_empty (enc : String → Time → String) (limit order : Int) (c : Option Cursor) :
    finishPage enc limit order c [] = .returned ⟨[], false, false, "", "", none⟩ := by
  simp [finishPage]

theorem finishPage_records_length_le (enc : String → Time → String) (N order : Int) (c : Option Cursor)
    (fetched : List Comment) (h0 : 0 ≤ N) (hhi : N < 9223372036854775808) :
    ((finishPage enc (wrap64 (N + 2)) order c fetched).records.length : Int) ≤ N := by
  by_cases hne : fetched.length = 0
  · have : fetched = [] := List.length_eq_zero.mp hne
    subst this
    rw [finishPage_of_empty]
    simpa [Outcome.records] using h0
  · cases ht : trimToLimit (wrap64 (N + 2)) (dropBoundary c fetched).2 with
    | none =>
      rw [finishPage_of_panic enc _ order c fetched hne ht]
      simpa [Outcome.records] using h0
    | some t =>
      rw [finishPage_of_trim enc _ order c fetched t hne ht]
      have := trimToLimit_length_le N _ t h0 hhi ht
      split <;> simpa [Outcome.records] using this

theorem finishPage_returns (enc : String → Time → String) (N order : Int) (c : Option Cursor)
    (fetched : List Comment) (h0 : 0 ≤ N) (hhi : N + 2 < 9223372036854775808) :
    finishPage enc (wrap64 (N + 2)) order c fetched ≠ .panicked := by
  by_cases hne : fetched.length = 0
  · have : fetched = [] := List.length_eq_zero.mp hne
    subst this
    rw [finishPage_of_empty]
    exact fun h => Outcome.noConfusion h
  · have ht := trimToLimit_of_fits N (dropBoundary c fetched).2 h0 hhi
    by_cases hc : N + 1 ≤ ((dropBoundary c fetched).2.length : Int)
    · rw [if_pos hc] at ht
      rw [finishPage_of_trim enc _ order c fetched _ hne ht]
      split <;> exact fun h => Outcome.noConfusion h
    · rw [if_neg hc] at ht
      rw [finishPage_of_trim enc _ order c fetched _ hne ht]
      split <;> exact fun h => Outcome.noConfusion h

theorem finishPage_err (enc : String → Time → String) (limit order : Int) (c : Option Cursor)
    (fetched : List Comment) (r : Result)
    (hr : finishPage enc limit order c fetched = .returned r) : r.err = none := by
  by_cases hne : fetched.length = 0
  · have : fetched = [] := List.length_eq_zero.mp hne
    subst this
    rw [finishPage_of_empty] at hr
    cases hr
    rfl
  · cases ht : trimToLimit limit (dropBoundary c fetched).2 with
    | none =>
      rw [finishPage_of_panic enc _ order c fetched hne ht] at hr
      cases hr
    | some t =>
      rw [finishPage_of_trim enc _ order c fetched t hne ht] at hr
      split at hr <;> (cases hr; rfl)

/-- The slice expression panics only on a negative index or on the index
`2^63 - 1`, which no slice capacity reaches. -/
theorem trimToLimit_panic_index (limit : Int) (l : List Comment)
    (h : trimToLimit limit l = none) :
    wrap64 (limit - 2) < 0 ∨ wrap64 (limit - 2) = 9223372036854775807 := by
  unfold trimToLimit at h
  split at h
  · rename_i hguard
    split at h
    · cases h
    · rename_i hidx
      unfold wrap64 at hguard hidx ⊢
      omega
  · cases h

theorem trimToLimit_untrimmed (limit : Int) (l : List Comment) (t : Bool × List Comment)
    (h : trimToLimit limit l = some t) (hflag : t.1 = false) : t.2 = l := by
  unfold trimToLimit at h
  split at h
  · split at h
    · cases h
      cases hflag
    · cases h
  · cases h
    rfl

theorem trimToLimit_initial_segment (limit : Int) (l : List Comment) (t : Bool × List Comment)
    (h : trimToLimit limit l = some t) : t.2 <+: l := by
  unfold trimToLimit at h
  split at h
  · split at h
    · cases h
      exact List.take_prefix _ _
    · cases h
  · cases h
    exact List.prefix_refl _

theorem dropBoundary_none (l : List Comment) : dropBoundary none l = (false, l) := by
  simp [dropBoundary]

theorem dropBoundary_of_match (c : Option Cursor) (x : Comment) (rest : List Comment)
    (h : ∃ b, c = some b ∧ x.Id = b.ID) : dropBoundary c (x :: rest) = (true, rest) := by
  obtain ⟨b, rfl, hid⟩ := h
  simp [dropBoundary, hid]

theorem dropBoundary_of_no_match (c : Option Cursor) (x : Comment) (rest : List Comment)
    (h : ¬ ∃ b, c = some b ∧ x.Id = b.ID) : dropBoundary c (x :: rest) = (false, x :: rest) := by
  cases c with
  | none => simp [dropBoundary]
  | some b =>
    have hid : x.Id ≠ b.ID := fun hid => h ⟨b, rfl, hid⟩
    simp [dropBoundary, hid]

theorem dropBoundary_kept (c : Option Cursor) (l : List Comment)
    (hflag : (dropBoundary c l).1 = false) : (dropBoundary c l).2 = l := by
  unfold dropBoundary at hflag ⊢
  split
  · rename_i b x rest
    by_cases hid : x.Id = b.ID
    · simp [hid] at hflag
    · simp [hid]
  · rfl

theorem pageCursors_nil (enc : String → Time → String) : pageCursors enc [] = ("", "") := by
  simp [pageCursors]

theorem pageCursors_of_ne_nil (enc : String → Time → String) (l : List Comment) (hne : l ≠ []) :
    ∃ f la, l.head? = some f ∧ l.getLast? = some la ∧
      pageCursors enc l = (enc f.Id f.TimeCreated, enc la.Id la.TimeCreated) := by
  refine ⟨l.head hne, l.getLast hne, List.head?_eq_head hne, List.getLast?_eq_getLast l hne, ?_⟩
  simp [pageCursors, List.head?_eq_head hne, List.getLast?_eq_getLast l hne]

theorem foldl_append_singleton {α β : Type} (f : α → β) (l : List α) (acc : List β) :
    l.foldl (fun edges d => edges ++ [f d]) acc = acc ++ l.map f := by
  induction l generalizing acc with
  | nil => simp
  | cons x xs ih => simp [ih]

theorem Schema.NewCommentsConnection_edges (enc : String → Time → String)
    (data : List Backend.Comment) (hasNextPage hasPreviousPage : Bool)
    (firstCursor lastCursor : Option String) :
    (Schema.NewCommentsConnection enc data hasNextPage hasPreviousPage firstCursor
        lastCursor).Edges =
      data.map (fun d => ⟨Schema.NewComment (some d), enc d.Id d.TimeCreated⟩) := by
  simp [Schema.NewCommentsConnection, foldl_append_singleton]

theorem dropBoundary_sublist (c : Option Cursor) (l : List Comment) :
    (dropBoundary c l).2.Sublist l := by
  unfold dropBoundary
  split
  · split
    · exact List.sublist_cons_self _ _
    · exact List.Sublist.refl _
  · exact List.Sublist.refl _

/-- The records of a returned page are fetched records, in fetched order. -/
theorem finishPage_records_sublist (enc : String → Time → String) (limit order : Int)
    (c : Option Cursor) (fetched : List Comment) (r : Result)
    (hr : finishPage enc limit order c fetched = .returned r) : r.comments.Sublist fetched := by
  by_cases hne : fetched.length = 0
  · have hnil : fetched = [] := List.length_eq_zero.mp hne
    subst hnil
    rw [finishPage_of_empty] at hr
    cases hr
    exact List.Sublist.refl _
  · cases ht : trimToLimit limit (dropBoundary c fetched).2 with
    | none =>
      rw [finishPage_of_panic enc _ order c fetched hne ht] at hr
      cases hr
    | some t =>
      rw [finishPage_of_trim enc _ order c fetched t hne ht] at hr
      have hsub : t.2.Sublist fetched :=
        (trimToLimit_initial_segment _ _ t ht).sublist.trans (dropBoundary_sublist c fetched)
      split at hr <;> (cases hr; exact hsub)

theorem mem_applyLimit (limit : Int) (l : List Comment) (x : Comment)
    (h : x ∈ applyLimit limit l) : x ∈ l := by
  unfold applyLimit at h
  split at h
  · exact h
  · exact List.mem_of_mem_take h

theorem mem_sortComments (o : SortOrder) (l : List Comment) (x : Comment)
    (h : x ∈ sortComments o l) : x ∈ l := by
  unfold sortComments at h
  split at h
  · exact (List.perm_insertionSort _ l).mem_iff.mp h
  · exact (List.perm_insertionSort _ l).mem_iff.mp h

/-- Every record the exact store returns satisfies every clause of the query. -/
theorem exactFind_holds (records : List Comment) (q : Query) (o : FindOptions)
    (fetched : List Comment) (h : exactFind records q o = .ok fetched)
    (x : Comment) (hx : x ∈ fetched) (cl : Clause) (hcl : cl ∈ q) : cl.holds x = true := by
  unfold exactFind at h
  cases h
  have hmem := mem_sortComments _ _ x (mem_applyLimit _ _ x hx)
  have hall := (List.mem_filter.mp hmem).2
  exact List.all_eq_true.mp hall cl hcl

/-- Whatever sort order `utils.GetSortOrder` stands for: over the exact store,
a forward request (`order == 1`) with a decoded cursor returns only records
at or before the cursor in both `time_created` and `_id`. -/
theorem GetComments_forward_bounded_by_cursor (d : Deps) (records : List Comment)
    (ids : List String) (story : Option Story) (after before : Option String)
    (first last : Option Int) (limit : Int) (token : String) (c : Cursor) (r : Result)
    (hstore : d.Find = exactFind records)
    (hreq : d.GetLimitAndSortOrderAndCursor first last after before = (limit, 1, some token))
    (hdec : d.FromString token = some c)
    (hr : GetComments d ids story after before first last = .returned r) :
    ∀ x ∈ r.comments, x.TimeCreated ≤ c.TimeStamp ∧ idLE x.Id c.ID := by
  intro x hx
  cases hfind : rangeRead d ids story after before first last with
  | error e =>
    rw [GetComments_of_error d ids story after before first last e hfind] at hr
    cases hr
    cases hx
  | ok fetched =>
    rw [GetComments_eq_finishPage d ids story after before first last fetched hfind] at hr
    have hxf : x ∈ fetched := (finishPage_records_sublist _ _ _ _ fetched r hr).subset hx
    simp only [rangeRead, hreq, decodeCursor, hdec, hstore] at hfind
    have h1 := exactFind_holds records _ _ fetched hfind x hxf
      (Clause.timeCreatedLte c.TimeStamp) (by simp [buildQuery])
    have h2 := exactFind_holds records _ _ fetched hfind x hxf
      (Clause.idLte c.ID) (by simp [buildQuery])
    simp only [Clause.holds, decide_eq_true_eq] at h1 h2
    exact ⟨h1, h2⟩

/-! ## The order of records and the exact store -/

theorem idLE_refl (a : String) : idLE a a :=
  le_refl a.toList

theorem idLE_total (a b : String) : idLE a b ∨ idLE b a :=
  le_total a.toList b.toList

theorem idLE_trans {a b c : String} (h1 : idLE a b) (h2 : idLE b c) : idLE a c :=
  le_trans (a := a.toList) h1 h2

theorem idLE_antisymm {a b : String} (h1 : idLE a b) (h2 : idLE b a) : a = b :=
  String.ext (le_antisymm (a := a.toList) h1 h2)

theorem keyLE_total (a b : Comment) : keyLE a b ∨ keyLE b a := by
  unfold keyLE
  rcases lt_trichotomy a.TimeCreated b.TimeCreated with h | h | h
  · exact Or.inl (Or.inl h)
  · rcases idLE_total a.Id b.Id with hi | hi
    · exact Or.inl (Or.inr ⟨h, hi⟩)
    · exact Or.inr (Or.inr ⟨h.symm, hi⟩)
  · exact Or.inr (Or.inl h)

theorem keyLE_trans {a b c : Comment} (h1 : keyLE a b) (h2 : keyLE b c) : keyLE a c := by
  unfold keyLE at h1 h2 ⊢
  rcases h1 with h1 | ⟨h1, i1⟩
  · rcases h2 with h2 | ⟨h2, _⟩
    · exact Or.inl (lt_trans h1 h2)
    · exact Or.inl (lt_of_lt_of_eq h1 h2)
  · rcases h2 with h2 | ⟨h2, i2⟩
    · exact Or.inl (lt_of_eq_of_lt h1 h2)
    · exact Or.inr ⟨h1.trans h2, idLE_trans i1 i2⟩

/-- Two records that are each at or before the other in `(time_created, _id)`
have the same creation time and the same id. -/
theorem keyLE_antisymm_key {a b : Comment} (h1 : keyLE a b) (h2 : keyLE b a) :
    a.TimeCreated = b.TimeCreated ∧ a.Id = b.Id := by
  unfold keyLE at h1 h2
  rcases h1 with h1 | ⟨h1, i1⟩
  · rcases h2 with h2 | ⟨h2, _⟩
    · exact absurd h2 (lt_asymm h1)
    · exact absurd h2.symm (ne_of_lt h1)
  · rcases h2 with h2 | ⟨_, i2⟩
    · exact absurd h1.symm (ne_of_lt h2)
    · exact ⟨h1, idLE_antisymm i1 i2⟩

theorem keyLE_flip_isTotal : IsTotal Comment (fun a b => keyLE b a) :=
  ⟨fun a b => keyLE_total b a⟩

theorem keyLE_flip_isTrans : IsTrans Comment (fun a b => keyLE b a) :=
  ⟨fun _ _ _ h1 h2 => keyLE_trans h2 h1⟩

theorem sortComments_descending_sorted (l : List Comment) :
    (sortComments .descending l).Pairwise (fun a b => keyLE b a) :=
  @List.sorted_insertionSort _ (fun a b => keyLE b a) _ keyLE_flip_isTotal keyLE_flip_isTrans l

theorem sortComments_perm (o : SortOrder) (l : List Comment) : (sortComments o l).Perm l := by
  unfold sortComments
  split
  · exact List.perm_insertionSort _ l
  · exact List.perm_insertionSort _ l

/-- The clauses for ids and story are part of every query `GetComments` builds. -/
theorem buildQuery_base_subset (ids : List String) (story : Option Story) (order : Int)
    (c : Option Cursor) (cl : Clause) (h : cl ∈ buildQuery ids story 1 none) :
    cl ∈ buildQuery ids story order c := by
  unfold buildQuery at h ⊢
  cases c with
  | none => exact h
  | some b =>
    simp only at h ⊢
    split <;> exact List.mem_append_left _ h

/-- With a decoded cursor a forward query is the base query followed by the
two `Lte` clauses. -/
theorem buildQuery_forward_cursor (ids : List String) (story : Option Story) (c : Cursor) :
    buildQuery ids story 1 (some c) =
      buildQuery ids story 1 none ++
        [Clause.timeCreatedLte c.TimeStamp, Clause.idLte c.ID] := by
  simp [buildQuery]

theorem exactFind_mem (records : List Comment) (q : Query) (o : FindOptions)
    (fetched : List Comment) (h : exactFind records q o = .ok fetched)
    (x : Comment) (hx : x ∈ fetched) : x ∈ records := by
  unfold exactFind at h
  cases h
  exact (List.mem_filter.mp (mem_sortComments _ _ x (mem_applyLimit _ _ x hx))).1

/-- Filtering by a forward query with cursor is filtering by the base query
and then by the two `Lte` clauses. -/
theorem filter_forward_cursor (records : List Comment) (ids : List String)
    (story : Option Story) (c : Cursor) :
    records.filter (fun x => (buildQuery ids story 1 (some c)).all (fun cl => cl.holds x)) =
      (records.filter (fun x => (buildQuery ids story 1 none).all (fun cl => cl.holds x))).filter
        (fun x => decide (x.TimeCreated ≤ c.TimeStamp) && decide (idLE x.Id c.ID)) := by
  rw [List.filter_filter, buildQuery_forward_cursor]
  congr 1
  funext x
  simp only [List.all_append, List.all_cons, List.all_nil, Clause.holds, Bool.and_true]
  exact Bool.and_comm _ _

/-- Of a set listed in strictly increasing order, the two `Lte` clauses on the
cursor of `r` keep `r` and what comes before it. -/
theorem filter_at_or_before (pre post : List Comment) (r : Comment)
    (hinc : (pre ++ r :: post).Pairwise
      (fun a b => a.TimeCreated < b.TimeCreated ∧ idLE a.Id b.Id ∧ a.Id ≠ b.Id)) :
    (pre ++ r :: post).filter
        (fun x => decide (x.TimeCreated ≤ r.TimeCreated) && decide (idLE x.Id r.Id)) =
      pre ++ [r] := by
  obtain ⟨_, hrp, hcross⟩ := List.pairwise_append.mp hinc
  have hpost := (List.pairwise_cons.mp hrp).1
  have h1 : pre.filter
      (fun x => decide (x.TimeCreated ≤ r.TimeCreated) && decide (idLE x.Id r.Id)) = pre := by
    apply List.filter_eq_self.mpr
    intro a ha
    have := hcross a ha r (List.mem_cons_self _ _)
    simp [le_of_lt this.1, this.2.1]
  have h2 : post.filter
      (fun x => decide (x.TimeCreated ≤ r.TimeCreated) && decide (idLE x.Id r.Id)) = [] := by
    apply List.filter_eq_nil_iff.mpr
    intro a ha
    have := hpost a ha
    simp [not_le_of_lt this.1]
  rw [List.filter_append, h1, List.filter_cons_of_pos (by simp [idLE_refl]), h2]

/-- A descending sort of a permutation of a strictly increasing list is that
list reversed. -/
theorem sortComments_descending_of_increasing (l m : List Comment) (hperm : l.Perm m)
    (hinc : m.Pairwise (fun a b => a.TimeCreated < b.TimeCreated)) :
    sortComments .descending l = m.reverse := by
  have hsym : Symmetric (fun a b : Comment =>
      a.TimeCreated < b.TimeCreated ∨ b.TimeCreated < a.TimeCreated) :=
    fun _ _ h => h.symm
  have hdist : m.Pairwise (fun a b =>
      a.TimeCreated < b.TimeCreated ∨ b.TimeCreated < a.TimeCreated) :=
    hinc.imp (fun h => Or.inl h)
  refine List.Perm.eq_of_sorted ?_ (sortComments_descending_sorted l)
    (List.pairwise_reverse.mpr (hinc.imp (fun h => Or.inl h)))
    (((sortComments_perm .descending l).trans hperm).trans (List.reverse_perm m).symm)
  intro a b ha hb hba hab
  by_contra hneq
  have ham : a ∈ m := hperm.mem_iff.mp ((sortComments_perm .descending l).mem_iff.mp ha)
  have hbm : b ∈ m := List.mem_reverse.mp hb
  have ht := (keyLE_antisymm_key hab hba).1
  rcases List.Pairwise.forall hsym hdist ham hbm hneq with h | h
  · exact absurd ht (ne_of_lt h)
  · exact absurd ht.symm (ne_of_lt h)

/-- One below the largest page size the guard and the slice index are still
`N + 1` and `N`: the trim keeps the first `N` records when more than `N` are
there, and everything otherwise. -/
theorem trimToLimit_below_largest (N : Int) (l : List Comment) (h0 : 0 ≤ N)
    (hhi : N < 9223372036854775807) :
    trimToLimit (wrap64 (N + 2)) l =
      if N + 1 ≤ (l.length : Int) then some (true, l.take N.toNat) else some (false, l) := by
  have e1 : wrap64 (wrap64 (N + 2) - 1) = N + 1 := by
    unfold wrap64
    omega
  unfold trimToLimit
  rw [e1, wrap64_limit_sub_two N h0 (by omega)]
  by_cases h : N + 1 ≤ (l.length : Int)
  · have h2 : 0 ≤ N ∧ N ≤ (l.length : Int) := ⟨h0, by omega⟩
    simp [h, h2]
  · simp [h]

/-- The two readings of the missing `utils.GetSortOrder` on the scenario. With
a forward request sorted ascending, `first = 3` returns `[a, b, c]` with end
cursor `cursor(c, 3)` and `first = 3` with that cursor as `after` returns
`[a, b, c]` again; with a forward request sorted descending the two pages are
`[e, d, c]` and `[b, a]`. -/
theorem GetComments_sort_readings :
    GetComments (specDeps scenario) [] none none none (some 3) none =
      .returned ⟨[mkComment "a" 1, mkComment "b" 2, mkComment "c" 3], true, false,
        "1|a", "3|c", none⟩ ∧
    GetComments (specDeps scenario) [] none (some "3|c") none (some 3) none =
      .returned ⟨[mkComment "a" 1, mkComment "b" 2, mkComment "c" 3], false, false,
        "1|a", "3|c", none⟩ ∧
    GetComments (reversedDeps scenario) [] none none none (some 3) none =
      .returned ⟨[mkComment "e" 5, mkComment "d" 4, mkComment "c" 3], true, false,
        "5|e", "3|c", none⟩ ∧
    GetComments (reversedDeps scenario) [] none (some "3|c") none (some 3) none =
      .returned ⟨[mkComment "b" 2, mkComment "a" 1], false, true, "2|b", "1|a", none⟩ := by
  decide

/-- At the page size `2^63 - 1` the limit `limit + 2` wraps around, the guard
on line 116 holds for every count and the slice index is `2^63 - 1`: the
call panics on any non-empty fetch. One below, the limit wraps too but the
guard fails and the fetched records are returned as they are. -/
theorem GetComments_at_largest_page_sizes :
    GetComments (specDeps scenario) [] none none none (some 9223372036854775807) none =
      .panicked ∧
    GetComments (specDeps scenario) [] none none none (some 9223372036854775806) none =
      .returned ⟨scenario, false, false, "1|a", "5|e", none⟩ := by
  decide

/-! ## Claims -/

/-- C1: for every page size `N >= 0` in the `int64` range resolved for the
request (from `first` or from `last`), every cursor and every behaviour of the
range read, `GetComments` hands back at most `N` records; and when `N + 2`
does not overflow it returns rather than panics. -/
theorem GetComments_records_length_le (d : Deps) (ids : List String) (story : Option Story)
    (after before : Option String) (first last : Option Int) (N : Int)
    (hN : (d.GetLimitAndSortOrderAndCursor first last after before).1 = N)
    (h0 : 0 ≤ N) (hhi : N < 9223372036854775808) :
    ((GetComments d ids story after before first last).records.length : Int) ≤ N ∧
    (N + 2 < 9223372036854775808 →
      ∃ r, GetComments d ids story after before first last = .returned r) := by
  cases hfind : rangeRead d ids story after before first last with
  | error e =>
    rw [GetComments_of_error d ids story after before first last e hfind]
    exact ⟨by simpa [Outcome.records] using h0, fun _ => ⟨_, rfl⟩⟩
  | ok fetched =>
    rw [GetComments_eq_finishPage d ids story after before first last fetched hfind, hN]
    refine ⟨finishPage_records_length_le d.NewCursorString N _ _ fetched h0 hhi, fun hfit => ?_⟩
    have hne := finishPage_returns d.NewCursorString N
      (d.GetLimitAndSortOrderAndCursor first last after before).2.1
      (decodeCursor d (d.GetLimitAndSortOrderAndCursor first last after before).2.2)
      fetched h0 hfit
    revert hne
    cases finishPage d.NewCursorString (wrap64 (N + 2))
      (d.GetLimitAndSortOrderAndCursor first last after before).2.1
      (decodeCursor d (d.GetLimitAndSortOrderAndCursor first last after before).2.2) fetched with
    | returned r => exact fun _ => ⟨r, rfl⟩
    | panicked => exact fun h => absurd rfl h

/-- Witness of C1: over the scenario, `first = 2` from the start and
`last = 2` before `cursor(d, 4)`. -/
theorem GetComments_records_length_le_witness :
    (((GetComments (specDeps scenario) [] none none none (some 2) none).records.length : Int) ≤ 2 ∧
      ((2 : Int) + 2 < 9223372036854775808 →
        ∃ r, GetComments (specDeps scenario) [] none none none (some 2) none = .returned r)) ∧
    (((GetComments (specDeps scenario) [] none none (some "4|d") none (some 2)).records.length
        : Int) ≤ 2 ∧
      ((2 : Int) + 2 < 9223372036854775808 →
        ∃ r, GetComments (specDeps scenario) [] none none (some "4|d") none (some 2)
          = .returned r)) :=
  ⟨GetComments_records_length_le (specDeps scenario) [] none none none (some 2) none 2
      rfl (by decide) (by decide),
    GetComments_records_length_le (specDeps scenario) [] none none (some "4|d") none (some 2) 2
      rfl (by decide) (by decide)⟩

/-- C2, as the code behaves: over the exact store on a static set whose
matching records, listed `pre ++ r :: post`, have strictly increasing
timestamps and ids, the forward request `first = N`, `after = cursor(r)`
(a token that decodes back to `r`) returns only records at or before `r`,
never one of `post`, whatever the sort order. When the forward range read is
sorted newest first and `1 <= N <= 2^63 - 2`, it returns exactly the up-to-`N`
records that immediately precede `r`, nearest first, with
`hasPreviousPage = true` and `hasNextPage = true` iff more than `N` records
precede `r`. -/
theorem GetComments_after_cursor_page (d : Deps) (records pre post : List Comment)
    (r : Comment) (ids : List String) (story : Option Story)
    (after before : Option String) (first last : Option Int) (N : Int)
    (hstore : d.Find = exactFind records)
    (hset : (records.filter
      (fun x => (buildQuery ids story 1 none).all (fun cl => cl.holds x))).Perm
        (pre ++ r :: post))
    (hinc : (pre ++ r :: post).Pairwise
      (fun a b => a.TimeCreated < b.TimeCreated ∧ idLE a.Id b.Id ∧ a.Id ≠ b.Id))
    (hdec : d.FromString (d.NewCursorString r.Id r.TimeCreated) =
      some ⟨r.Id, r.TimeCreated⟩)
    (hreq : d.GetLimitAndSortOrderAndCursor first last after before =
      (N, 1, some (d.NewCursorString r.Id r.TimeCreated))) :
    (∀ res, GetComments d ids story after before first last = .returned res →
      ∀ x ∈ res.comments, x ∈ pre ∨ x = r) ∧
    (d.GetSortOrder 1 = .descending → 1 ≤ N → N < 9223372036854775807 →
      GetComments d ids story after before first last =
        .returned ⟨pre.reverse.take N.toNat, decide (N < (pre.length : Int)), true,
          (pageCursors d.NewCursorString (pre.reverse.take N.toNat)).1,
          (pageCursors d.NewCursorString (pre.reverse.take N.toNat)).2, none⟩) := by
  have hdecC : decodeCursor d (some (d.NewCursorString r.Id r.TimeCreated)) =
      some ⟨r.Id, r.TimeCreated⟩ := hdec
  constructor
  · intro res hres x hx
    cases hfind : rangeRead d ids story after before first last with
    | error e =>
      rw [GetComments_of_error d ids story after before first last e hfind] at hres
      cases hres
      cases hx
    | ok fetched =>
      rw [GetComments_eq_finishPage d ids story after before first last fetched hfind]
        at hres
      have hxf : x ∈ fetched := (finishPage_records_sublist _ _ _ _ fetched res hres).subset hx
      simp only [rangeRead, hreq, hdecC, hstore] at hfind
      have hxr := exactFind_mem records _ _ fetched hfind x hxf
      have hcl := exactFind_holds records _ _ fetched hfind x hxf
      have hbase : x ∈ records.filter
          (fun x => (buildQuery ids story 1 none).all (fun cl => cl.holds x)) :=
        List.mem_filter.mpr ⟨hxr, List.all_eq_true.mpr
          (fun cl hb => hcl cl (buildQuery_base_subset ids story 1 _ cl hb))⟩
      have ht := hcl (Clause.timeCreatedLte r.TimeCreated)
        (by rw [buildQuery_forward_cursor]; simp)
      simp only [Clause.holds, decide_eq_true_eq] at ht
      rcases List.mem_append.mp (hset.mem_iff.mp hbase) with hpre | hrest
      · exact Or.inl hpre
      · rcases List.mem_cons.mp hrest with heq | hpost
        · exact Or.inr heq
        · have hlt := ((List.pairwise_cons.mp (List.pairwise_append.mp hinc).2.1).1 x hpost).1
          exact absurd ht (not_le_of_lt hlt)
  · intro hsort h1 hhi
    have hF : (records.filter (fun x =>
        (buildQuery ids story 1 (some ⟨r.Id, r.TimeCreated⟩)).all
          (fun cl => cl.holds x))).Perm (pre ++ [r]) := by
      rw [filter_forward_cursor]
      have := hset.filter
        (fun x => decide (x.TimeCreated ≤ r.TimeCreated) && decide (idLE x.Id r.Id))
      rw [filter_at_or_before pre post r hinc] at this
      exact this
    have hinc2 : (pre ++ [r]).Pairwise (fun a b => a.TimeCreated < b.TimeCreated) :=
      (List.Pairwise.sublist
        (List.Sublist.append (List.Sublist.refl pre) ((List.nil_sublist post).cons₂ r))
        hinc).imp (fun h => h.1)
    have hS := sortComments_descending_of_increasing _ _ hF hinc2
    rw [List.reverse_append, List.reverse_singleton, List.singleton_append] at hS
    have hlim : applyLimit (wrap64 (N + 2)) (r :: pre.reverse) =
        r :: pre.reverse.take (N + 1).toNat := by
      have hne0 : wrap64 (N + 2) ≠ 0 := by
        unfold wrap64
        omega
      have habs : (wrap64 (N + 2)).natAbs = (N + 1).toNat + 1 := by
        unfold wrap64
        omega
      unfold applyLimit
      rw [if_neg hne0, habs, List.take_succ_cons]
    have hfind : rangeRead d ids story after before first last =
        .ok (r :: pre.reverse.take (N + 1).toNat) := by
      simp only [rangeRead, hreq, hdecC, hstore, hsort]
      unfold exactFind
      simp only
      rw [hS, hlim]
    rw [GetComments_eq_finishPage d ids story after before first last _ hfind, hreq, hdecC]
    have hne : (r :: pre.reverse.take (N + 1).toNat).length ≠ 0 := by simp
    have hdrop : dropBoundary (some ⟨r.Id, r.TimeCreated⟩)
        (r :: pre.reverse.take (N + 1).toNat) = (true, pre.reverse.take (N + 1).toNat) :=
      dropBoundary_of_match _ r _ ⟨_, rfl, rfl⟩
    have ht := trimToLimit_below_largest N (pre.reverse.take (N + 1).toNat) (by omega) hhi
    by_cases hc : N < (pre.length : Int)
    · have hguard : N + 1 ≤ ((pre.reverse.take (N + 1).toNat).length : Int) := by
        simp only [List.length_take, List.length_reverse]
        omega
      rw [if_pos hguard, List.take_take,
        show min N.toNat (N + 1).toNat = N.toNat by omega] at ht
      have ht2 : trimToLimit (wrap64 (N + 2))
          (dropBoundary (some ⟨r.Id, r.TimeCreated⟩)
            (r :: pre.reverse.take (N + 1).toNat)).2 =
          some (true, pre.reverse.take N.toNat) := by
        rw [hdrop]
        exact ht
      rw [finishPage_of_trim _ _ 1 _ _ _ hne ht2, hdrop]
      simp [hc]
    · have hguard : ¬ N + 1 ≤ ((pre.reverse.take (N + 1).toNat).length : Int) := by
        simp only [List.length_take, List.length_reverse]
        omega
      have hall1 : pre.reverse.take (N + 1).toNat = pre.reverse :=
        List.take_of_length_le (by simp only [List.length_reverse]; omega)
      have hall2 : pre.reverse.take N.toNat = pre.reverse :=
        List.take_of_length_le (by simp only [List.length_reverse]; omega)
      rw [if_neg hguard, hall1] at ht
      have ht2 : trimToLimit (wrap64 (N + 2))
          (dropBoundary (some ⟨r.Id, r.TimeCreated⟩)
            (r :: pre.reverse.take (N + 1).toNat)).2 =
          some (false, pre.reverse) := by
        rw [hdrop, hall1]
        exact ht
      rw [finishPage_of_trim _ _ 1 _ _ _ hne ht2, hdrop, hall2]
      simp [hc]

/-- Witness of C2: `first = 2`, `after = cursor(c, 3)` over the scenario read
newest first; `[b, a]` comes back. -/
theorem GetComments_after_cursor_page_witness :
    (∀ res, GetComments (reversedDeps scenario) [] none (some "3|c") none (some 2) none =
        .returned res →
      ∀ x ∈ res.comments,
        x ∈ [mkComment "a" 1, mkComment "b" 2] ∨ x = mkComment "c" 3) ∧
    GetComments (reversedDeps scenario) [] none (some "3|c") none (some 2) none =
      .returned ⟨[mkComment "a" 1, mkComment "b" 2].reverse.take (2 : Int).toNat,
        decide ((2 : Int) < (([mkComment "a" 1, mkComment "b" 2] : List Comment).length : Int)),
        true,
        (pageCursors NewCursorString
          ([mkComment "a" 1, mkComment "b" 2].reverse.take (2 : Int).toNat)).1,
        (pageCursors NewCursorString
          ([mkComment "a" 1, mkComment "b" 2].reverse.take (2 : Int).toNat)).2, none⟩ :=
  ⟨(GetComments_after_cursor_page (reversedDeps scenario) scenario
      [mkComment "a" 1, mkComment "b" 2] [mkComment "d" 4, mkComment "e" 5] (mkComment "c" 3)
      [] none (some "3|c") none (some 2) none 2 rfl (List.Perm.refl _) (by decide) (by decide)
      rfl).1,
    (GetComments_after_cursor_page (reversedDeps scenario) scenario
      [mkComment "a" 1, mkComment "b" 2] [mkComment "d" 4, mkComment "e" 5] (mkComment "c" 3)
      [] none (some "3|c") none (some 2) none 2 rfl (List.Perm.refl _) (by decide) (by decide)
      rfl).2 rfl (by decide) (by decide)⟩

/-- C2 as stated fails: over the scenario `a..e`, `first = 2` with
`after = cursor(b, 2)` reads the records at or before `b` (clauses `Lte`).
Sorted ascending it returns `[a, b]` with both flags false; sorted descending
it returns `[a]` with `hasPreviousPage`; never `[c, d]`. And at
`first = 2^63 - 1` the call panics. -/
theorem GetComments_after_cursor_page_counterexample :
    NewCursorString "b" 2 = "2|b" ∧
    rangeRead (specDeps scenario) [] none (some "2|b") none (some 2) none =
      .ok [mkComment "a" 1, mkComment "b" 2] ∧
    GetComments (specDeps scenario) [] none (some "2|b") none (some 2) none =
      .returned ⟨[mkComment "a" 1, mkComment "b" 2], false, false, "1|a", "2|b", none⟩ ∧
    rangeRead (reversedDeps scenario) [] none (some "2|b") none (some 2) none =
      .ok [mkComment "b" 2, mkComment "a" 1] ∧
    GetComments (reversedDeps scenario) [] none (some "2|b") none (some 2) none =
      .returned ⟨[mkComment "a" 1], false, true, "1|a", "1|a", none⟩ ∧
    GetComments (reversedDeps scenario) [] none (some "2|b") none
      (some 9223372036854775807) none = .panicked := by
  refine ⟨by decide, rfl, by decide, rfl, by decide, by decide⟩

/-- C4, as the code behaves: a forward request without cursor and with
`first = N`, `0 <= N <= 2^63 - 2`, over `K = all.length` matching records of
which the range read returns the first `min(K, N + 2)`: when `N < K` exactly
the first `N` records come back with `hasNext = true`; when `K <= N` all `K`
records come back and both flags are false. -/
theorem GetComments_forward_from_start (d : Deps) (ids : List String) (story : Option Story)
    (after before : Option String) (first last : Option Int) (N : Int) (all : List Comment)
    (hreq : d.GetLimitAndSortOrderAndCursor first last after before = (N, 1, none))
    (h0 : 0 ≤ N) (hhi : N < 9223372036854775807)
    (hfind : rangeRead d ids story after before first last = .ok (all.take (N + 2).toNat)) :
    (N < (all.length : Int) →
      GetComments d ids story after before first last =
          .returned ⟨all.take N.toNat, true, false,
            (pageCursors d.NewCursorString (all.take N.toNat)).1, (pageCursors d.NewCursorString (all.take N.toNat)).2, none⟩ ∧
        ((all.take N.toNat).length : Int) = N) ∧
    ((all.length : Int) ≤ N →
      GetComments d ids story after before first last =
        .returned ⟨all, false, false, (pageCursors d.NewCursorString all).1, (pageCursors d.NewCursorString all).2, none⟩) := by
  rw [GetComments_eq_finishPage d ids story after before first last _ hfind, hreq]
  simp only [decodeCursor]
  constructor
  · intro hlt
    have hlen : (all.take (N + 2).toNat).length ≠ 0 := by
      simp only [List.length_take]
      omega
    have ht := trimToLimit_below_largest N (all.take (N + 2).toNat) h0 hhi
    have hc : N + 1 ≤ ((all.take (N + 2).toNat).length : Int) := by
      simp only [List.length_take]
      omega
    rw [if_pos hc, List.take_take, show min N.toNat (N + 2).toNat = N.toNat by omega] at ht
    have ht2 : trimToLimit (wrap64 (N + 2)) (dropBoundary none (all.take (N + 2).toNat)).2 =
        some (true, all.take N.toNat) := by
      rw [dropBoundary_none]
      exact ht
    rw [finishPage_of_trim d.NewCursorString _ 1 none _ _ hlen ht2]
    refine ⟨by simp [dropBoundary_none], ?_⟩
    simp only [List.length_take]
    omega
  · intro hle
    have hall : all.take (N + 2).toNat = all := List.take_of_length_le (by omega)
    rw [hall]
    by_cases hlen : all.length = 0
    · have : all = [] := List.length_eq_zero.mp hlen
      subst this
      rw [finishPage_of_empty]
      simp [pageCursors]
    · have ht := trimToLimit_below_largest N all h0 hhi
      rw [if_neg (by omega)] at ht
      have ht2 : trimToLimit (wrap64 (N + 2)) (dropBoundary none all).2 = some (false, all) := by
        rw [dropBoundary_none]
        exact ht
      rw [finishPage_of_trim d.NewCursorString _ 1 none _ _ hlen ht2]
      simp [dropBoundary_none]

/-- Witness of C4: `first = 2` from the start over the five records of the
scenario. -/
theorem GetComments_forward_from_start_witness :
    ((2 : Int) < (scenario.length : Int) →
      GetComments (specDeps scenario) [] none none none (some 2) none =
          .returned ⟨scenario.take (2 : Int).toNat, true, false,
            (pageCursors NewCursorString (scenario.take (2 : Int).toNat)).1,
            (pageCursors NewCursorString (scenario.take (2 : Int).toNat)).2, none⟩ ∧
        ((scenario.take (2 : Int).toNat).length : Int) = 2) ∧
    ((scenario.length : Int) ≤ 2 →
      GetComments (specDeps scenario) [] none none none (some 2) none =
        .returned ⟨scenario, false, false, (pageCursors NewCursorString scenario).1,
          (pageCursors NewCursorString scenario).2, none⟩) :=
  GetComments_forward_from_start (specDeps scenario) [] none none none (some 2) none 2 scenario
    rfl (by decide) (by decide) rfl

/-- C4 as stated fails at the largest page size: over the scenario (`K = 5`),
the forward request `first = 2^63 - 1` without cursor reads all five records,
the first `min(K, N + 2)`, and the call panics instead of returning them. -/
theorem GetComments_forward_from_start_counterexample :
    GetLimitAndSortOrderAndCursor (some 9223372036854775807) none none none =
      (9223372036854775807, 1, none) ∧
    rangeRead (specDeps scenario) [] none none none (some 9223372036854775807) none =
      .ok (scenario.take ((9223372036854775807 : Int) + 2).toNat) ∧
    (scenario.length : Int) ≤ 9223372036854775807 ∧
    GetComments (specDeps scenario) [] none none none (some 9223372036854775807) none =
      .panicked := by
  refine ⟨rfl, ?_, by decide, by decide⟩
  rfl

/-- C5: for every request, when the range read returns no record,
`GetComments` returns no error, no records, both flags false and both cursors
empty. -/
theorem GetComments_of_empty_read (d : Deps) (ids : List String) (story : Option Story)
    (after before : Option String) (first last : Option Int)
    (hfind : rangeRead d ids story after before first last = .ok []) :
    GetComments d ids story after before first last =
      .returned ⟨[], false, false, "", "", none⟩ := by
  rw [GetComments_eq_finishPage d ids story after before first last [] hfind]
  simp [finishPage]

/-- Witness of C5: a backward request with a cursor over an empty store. -/
theorem GetComments_of_empty_read_witness :
    GetComments (specDeps []) [] none none (some "4|d") none (some 2) =
      .returned ⟨[], false, false, "", "", none⟩ :=
  GetComments_of_empty_read (specDeps []) [] none none (some "4|d") none (some 2) rfl

/-- C6, as the code behaves: a request whose applicable cursor token is present
but does not decode is served exactly like the same request with no cursor
token (no boundary clause in the filter, no boundary drop), and the only
error it can return is the one of the range read. -/
theorem GetComments_undecodable_cursor (d : Deps) (ids : List String) (story : Option Story)
    (after before : Option String) (first last : Option Int) (limit order : Int)
    (token : String)
    (hreq : d.GetLimitAndSortOrderAndCursor first last after before = (limit, order, some token))
    (hdec : d.FromString token = none) :
    GetComments d ids story after before first last =
      GetComments { d with GetLimitAndSortOrderAndCursor := fun _ _ _ _ => (limit, order, none) }
        ids story after before first last ∧
    rangeRead d ids story after before first last =
      d.Find (buildQuery ids story order none) ⟨wrap64 (limit + 2), d.GetSortOrder order⟩ ∧
    ∀ r, GetComments d ids story after before first last = .returned r →
      r.err = none ∨
        ∃ e, r.err = some e ∧ rangeRead d ids story after before first last = .error e := by
  refine ⟨?_, ?_, ?_⟩
  · simp only [GetComments, rangeRead, hreq, decodeCursor, hdec]
  · simp only [rangeRead, hreq, decodeCursor, hdec]
  · intro r hr
    cases hfind : rangeRead d ids story after before first last with
    | error e =>
      rw [GetComments_of_error d ids story after before first last e hfind] at hr
      cases hr
      exact Or.inr ⟨e, rfl, rfl⟩
    | ok fetched =>
      left
      rw [GetComments_eq_finishPage d ids story after before first last fetched hfind] at hr
      exact finishPage_err _ _ _ _ fetched r hr

/-- Witness of C6: `first = 2`, `after = "garbage"` over the scenario. -/
theorem GetComments_undecodable_cursor_witness :
    GetComments (specDeps scenario) [] none (some "garbage") none (some 2) none =
      GetComments
        { specDeps scenario with GetLimitAndSortOrderAndCursor := fun _ _ _ _ => (2, 1, none) }
        [] none (some "garbage") none (some 2) none ∧
    rangeRead (specDeps scenario) [] none (some "garbage") none (some 2) none =
      (specDeps scenario).Find (buildQuery [] none 1 none)
        ⟨wrap64 (2 + 2), (specDeps scenario).GetSortOrder 1⟩ ∧
    ∀ r, GetComments (specDeps scenario) [] none (some "garbage") none (some 2) none
        = .returned r →
      r.err = none ∨
        ∃ e, r.err = some e ∧
          rangeRead (specDeps scenario) [] none (some "garbage") none (some 2) none = .error e :=
  GetComments_undecodable_cursor (specDeps scenario) [] none (some "garbage") none (some 2) none
    2 1 "garbage" rfl (by decide)

/-- C6 as stated fails: with `first = 2` and the undecodable token `garbage`
as `after`, the call returns the first page with a nil error, the very result
of the request without `after`. -/
theorem GetComments_undecodable_cursor_counterexample :
    FromString "garbage" = none ∧
    GetComments (specDeps scenario) [] none (some "garbage") none (some 2) none =
      .returned ⟨[mkComment "a" 1, mkComment "b" 2], true, false, "1|a", "2|b", none⟩ ∧
    GetComments (specDeps scenario) [] none none none (some 2) none =
      .returned ⟨[mkComment "a" 1, mkComment "b" 2], true, false, "1|a", "2|b", none⟩ := by
  decide

/-- C7, as the code behaves: on a backward request (`order < 0`) whose range
read returns the records in descending `(timestamp, id)` order, a returning
call hands back the trimmed fetched sequence itself, still in descending
order; the record order is not reversed, only the two flags and the two
cursors are exchanged. With a page size `0 <= limit` such that `limit + 2` is
an `int64` the call does return. -/
theorem GetComments_backward_order (d : Deps) (ids : List String) (story : Option Story)
    (after before : Option String) (first last : Option Int) (limit order : Int)
    (cursorStr : Option String) (fetched : List Comment)
    (hreq : d.GetLimitAndSortOrderAndCursor first last after before = (limit, order, cursorStr))
    (ho : order < 0)
    (hfind : rangeRead d ids story after before first last = .ok fetched)
    (hdesc : fetched.Pairwise (fun a b => keyLE b a)) :
    (∀ r, GetComments d ids story after before first last = .returned r →
      r.comments.Pairwise (fun a b => keyLE b a) ∧
      r.comments <+: (dropBoundary (decodeCursor d cursorStr) fetched).2 ∧
      (fetched ≠ [] →
        ∃ t, trimToLimit (wrap64 (limit + 2))
            (dropBoundary (decodeCursor d cursorStr) fetched).2 = some t ∧
          r.comments = t.2 ∧
          r.hasPreviousPage = t.1 ∧
          r.hasNextPage = (dropBoundary (decodeCursor d cursorStr) fetched).1 ∧
          r.firstCursor = (pageCursors d.NewCursorString t.2).2 ∧
          r.lastCursor = (pageCursors d.NewCursorString t.2).1)) ∧
    (0 ≤ limit → limit + 2 < 9223372036854775808 →
      ∃ r, GetComments d ids story after before first last = .returned r) := by
  rw [GetComments_eq_finishPage d ids story after before first last _ hfind, hreq]
  constructor
  · intro r hr
    by_cases hne : fetched.length = 0
    · have hnil : fetched = [] := List.length_eq_zero.mp hne
      subst hnil
      rw [finishPage_of_empty] at hr
      cases hr
      exact ⟨List.Pairwise.nil, List.nil_prefix, fun h => absurd rfl h⟩
    · cases ht : trimToLimit (wrap64 (limit + 2))
          (dropBoundary (decodeCursor d cursorStr) fetched).2 with
      | none =>
        rw [finishPage_of_panic _ _ _ _ _ hne ht] at hr
        cases hr
      | some t =>
        rw [finishPage_of_trim _ _ _ _ _ t hne ht, if_pos ho] at hr
        cases hr
        have hpre := trimToLimit_initial_segment _ _ t ht
        have hsub : t.2.Sublist fetched :=
          hpre.sublist.trans (dropBoundary_sublist _ fetched)
        exact ⟨hdesc.sublist hsub, hpre, fun _ => ⟨t, rfl, rfl, rfl, rfl, rfl, rfl⟩⟩
  · intro h0 hhi
    have hret := finishPage_returns d.NewCursorString limit order (decodeCursor d cursorStr)
      fetched h0 hhi
    revert hret
    cases finishPage d.NewCursorString (wrap64 (limit + 2)) order (decodeCursor d cursorStr)
      fetched with
    | returned r => exact fun _ => ⟨r, rfl⟩
    | panicked => exact fun h => absurd rfl h

/-- Witness of C7: `last = 2` over the scenario, which fetches `[e, d, c, b]`
and returns `[e, d]`. -/
theorem GetComments_backward_order_witness :
    (-1 : Int) < 0 ∧
    [mkComment "e" 5, mkComment "d" 4, mkComment "c" 3, mkComment "b" 2].Pairwise
      (fun a b => keyLE b a) ∧
    [mkComment "e" 5, mkComment "d" 4].Pairwise (fun a b => keyLE b a) ∧
    ∃ r, GetComments (specDeps scenario) [] none none none none (some 2) = .returned r :=
  ⟨by decide, by decide,
    ((GetComments_backward_order (specDeps scenario) [] none none none none (some 2) 2 (-1) none
      [mkComment "e" 5, mkComment "d" 4, mkComment "c" 3, mkComment "b" 2]
      rfl (by decide) rfl (by decide)).1
        ⟨[mkComment "e" 5, mkComment "d" 4], false, true, "4|d", "5|e", none⟩ (by decide)).1,
    (GetComments_backward_order (specDeps scenario) [] none none none none (some 2) 2 (-1) none
      [mkComment "e" 5, mkComment "d" 4, mkComment "c" 3, mkComment "b" 2]
      rfl (by decide) rfl (by decide)).2 (by decide) (by decide)⟩

/-- C7 as stated fails: over the scenario, `last = 2` fetches `[e, d, c, b]`
in descending order and returns `[e, d]`, which is not in ascending order and
is not the reverse of the trimmed fetched sequence. -/
theorem GetComments_backward_order_counterexample :
    rangeRead (specDeps scenario) [] none none none none (some 2) =
      .ok [mkComment "e" 5, mkComment "d" 4, mkComment "c" 3, mkComment "b" 2] ∧
    GetComments (specDeps scenario) [] none none none none (some 2) =
      .returned ⟨[mkComment "e" 5, mkComment "d" 4], false, true, "4|d", "5|e", none⟩ ∧
    ¬ [mkComment "e" 5, mkComment "d" 4].Pairwise keyLE ∧
    [mkComment "e" 5, mkComment "d" 4] ≠ [mkComment "e" 5, mkComment "d" 4].reverse := by
  refine ⟨rfl, by decide, by decide, by decide⟩

/-- C8, as the code behaves: for every request whose returned records are
non-empty, with `f` the first and `l` the last returned record: on a forward
request (`order >= 0`) `firstCursor` is the cursor of `f` and `lastCursor` the
cursor of `l`; on a backward request (`order < 0`) the two are exchanged,
`firstCursor` is the cursor of `l` and `lastCursor` the cursor of `f`. The
connection built from the result has one edge per record, in the same order
and with that record's cursor, and carries `firstCursor` and `lastCursor` as
`StartCursor` and `EndCursor`. -/
theorem GetComments_page_cursors (d : Deps) (ids : List String) (story : Option Story)
    (after before : Option String) (first last : Option Int) (limit order : Int)
    (cursorStr : Option String) (r : Result)
    (hreq : d.GetLimitAndSortOrderAndCursor first last after before = (limit, order, cursorStr))
    (hr : GetComments d ids story after before first last = .returned r)
    (hne : r.comments ≠ []) :
    ∃ f l, r.comments.head? = some f ∧ r.comments.getLast? = some l ∧
      (¬ order < 0 →
        r.firstCursor = d.NewCursorString f.Id f.TimeCreated ∧
        r.lastCursor = d.NewCursorString l.Id l.TimeCreated) ∧
      (order < 0 →
        r.firstCursor = d.NewCursorString l.Id l.TimeCreated ∧
        r.lastCursor = d.NewCursorString f.Id f.TimeCreated) ∧
      (Schema.connectionOf d.NewCursorString r).Edges.map (fun e => e.Cursor) =
        r.comments.map (fun c => d.NewCursorString c.Id c.TimeCreated) ∧
      (Schema.connectionOf d.NewCursorString r).PageInfo.StartCursor = some r.firstCursor ∧
      (Schema.connectionOf d.NewCursorString r).PageInfo.EndCursor = some r.lastCursor := by
  obtain ⟨f, l, hf, hl, hpc⟩ := pageCursors_of_ne_nil d.NewCursorString r.comments hne
  refine ⟨f, l, hf, hl, ?_, ?_, ?_, rfl, rfl⟩
  · intro ho
    cases hfind : rangeRead d ids story after before first last with
    | error e =>
      rw [GetComments_of_error d ids story after before first last e hfind] at hr
      cases hr
      exact absurd rfl hne
    | ok fetched =>
      rw [GetComments_eq_finishPage d ids story after before first last fetched hfind,
        hreq] at hr
      by_cases hlen : fetched.length = 0
      · have hnil : fetched = [] := List.length_eq_zero.mp hlen
        subst hnil
        rw [finishPage_of_empty] at hr
        cases hr
        exact absurd rfl hne
      · cases ht : trimToLimit (wrap64 (limit + 2))
            (dropBoundary (decodeCursor d cursorStr) fetched).2 with
        | none =>
          rw [finishPage_of_panic _ _ _ _ _ hlen ht] at hr
          cases hr
        | some t =>
          rw [finishPage_of_trim _ _ _ _ _ t hlen ht, if_neg ho] at hr
          cases hr
          simp only at hpc
          rw [hpc]
          exact ⟨rfl, rfl⟩
  · intro ho
    cases hfind : rangeRead d ids story after before first last with
    | error e =>
      rw [GetComments_of_error d ids story after before first last e hfind] at hr
      cases hr
      exact absurd rfl hne
    | ok fetched =>
      rw [GetComments_eq_finishPage d ids story after before first last fetched hfind,
        hreq] at hr
      by_cases hlen : fetched.length = 0
      · have hnil : fetched = [] := List.length_eq_zero.mp hlen
        subst hnil
        rw [finishPage_of_empty] at hr
        cases hr
        exact absurd rfl hne
      · cases ht : trimToLimit (wrap64 (limit + 2))
            (dropBoundary (decodeCursor d cursorStr) fetched).2 with
        | none =>
          rw [finishPage_of_panic _ _ _ _ _ hlen ht] at hr
          cases hr
        | some t =>
          rw [finishPage_of_trim _ _ _ _ _ t hlen ht, if_pos ho] at hr
          cases hr
          simp only at hpc
          rw [hpc]
          exact ⟨rfl, rfl⟩
  · simp [Schema.connectionOf, Schema.NewCommentsConnection_edges]

/-- Witness of C8: `last = 5` over a store holding `b` and `c`. -/
theorem GetComments_page_cursors_witness :
    ∃ f l, [mkComment "c" 3, mkComment "b" 2].head? = some f ∧
      [mkComment "c" 3, mkComment "b" 2].getLast? = some l ∧
      (¬ (-1 : Int) < 0 → "2|b" = NewCursorString f.Id f.TimeCreated ∧
        "3|c" = NewCursorString l.Id l.TimeCreated) ∧
      ((-1 : Int) < 0 → "2|b" = NewCursorString l.Id l.TimeCreated ∧
        "3|c" = NewCursorString f.Id f.TimeCreated) ∧
      (Schema.connectionOf NewCursorString
          ⟨[mkComment "c" 3, mkComment "b" 2], false, false, "2|b", "3|c", none⟩).Edges.map
          (fun e => e.Cursor) =
        [mkComment "c" 3, mkComment "b" 2].map (fun c => NewCursorString c.Id c.TimeCreated) ∧
      (Schema.connectionOf NewCursorString
          ⟨[mkComment "c" 3, mkComment "b" 2], false, false, "2|b", "3|c", none⟩).PageInfo.StartCursor
        = some "2|b" ∧
      (Schema.connectionOf NewCursorString
          ⟨[mkComment "c" 3, mkComment "b" 2], false, false, "2|b", "3|c", none⟩).PageInfo.EndCursor
        = some "3|c" :=
  GetComments_page_cursors (specDeps [mkComment "b" 2, mkComment "c" 3]) [] none none none none
    (some 5) 5 (-1) none ⟨[mkComment "c" 3, mkComment "b" 2], false, false, "2|b", "3|c", none⟩
    rfl (by decide) (by decide)

/-- C8 as stated fails for a backward request: over a store holding `b` and
`c`, `last = 5` returns `[c, b]` with `firstCursor = cursor(b, 2)` and
`lastCursor = cursor(c, 3)`; in the connection built from it the start cursor
is the cursor of the last edge and the end cursor that of the first edge. -/
theorem GetComments_page_cursors_counterexample :
    GetComments (specDeps [mkComment "b" 2, mkComment "c" 3]) [] none none none none (some 5) =
      .returned ⟨[mkComment "c" 3, mkComment "b" 2], false, false, "2|b", "3|c", none⟩ ∧
    (Schema.connectionOf NewCursorString
        ⟨[mkComment "c" 3, mkComment "b" 2], false, false, "2|b", "3|c", none⟩).PageInfo
      = ⟨false, false, some "2|b", some "3|c"⟩ ∧
    (Schema.connectionOf NewCursorString
        ⟨[mkComment "c" 3, mkComment "b" 2], false, false, "2|b", "3|c", none⟩).Edges.map
        (fun e => e.Cursor)
      = ["3|c", "2|b"] ∧
    (Schema.connectionOf NewCursorString
        ⟨[mkComment "c" 3, mkComment "b" 2], false, false, "2|b", "3|c", none⟩).PageInfo.StartCursor
      ≠ (Schema.connectionOf NewCursorString
        ⟨[mkComment "c" 3, mkComment "b" 2], false, false, "2|b", "3|c", none⟩).Edges.head?.map
        (fun e => e.Cursor) := by
  decide

/-- C9, as the code behaves: whenever the records `GetComments` returns are
empty, both cursors are empty; the two flags are both false exactly when the
range read itself returned no record (or failed). A page emptied by the
boundary drop or by the trim keeps the flag that step set. -/
theorem GetComments_empty_page (d : Deps) (ids : List String) (story : Option Story)
    (after before : Option String) (first last : Option Int) (r : Result)
    (hr : GetComments d ids story after before first last = .returned r)
    (hempty : r.comments = []) :
    r.firstCursor = "" ∧ r.lastCursor = "" ∧
    ((r.hasNextPage = false ∧ r.hasPreviousPage = false) ↔
      ∀ fetched, rangeRead d ids story after before first last = .ok fetched → fetched = []) := by
  cases hfind : rangeRead d ids story after before first last with
  | error e =>
    rw [GetComments_of_error d ids story after before first last e hfind] at hr
    cases hr
    exact ⟨rfl, rfl, ⟨fun _ fetched hf => (by cases hf), fun _ => ⟨rfl, rfl⟩⟩⟩
  | ok fetched =>
    rw [GetComments_eq_finishPage d ids story after before first last fetched hfind] at hr
    by_cases hne : fetched.length = 0
    · have hnil : fetched = [] := List.length_eq_zero.mp hne
      subst hnil
      rw [finishPage_of_empty] at hr
      cases hr
      exact ⟨rfl, rfl, ⟨fun _ fetched hf => (by cases hf; rfl), fun _ => ⟨rfl, rfl⟩⟩⟩
    · cases ht : trimToLimit
          (wrap64 ((d.GetLimitAndSortOrderAndCursor first last after before).1 + 2))
          (dropBoundary
            (decodeCursor d (d.GetLimitAndSortOrderAndCursor first last after before).2.2)
            fetched).2 with
      | none =>
        rw [finishPage_of_panic _ _ _ _ fetched hne ht] at hr
        cases hr
      | some t =>
        rw [finishPage_of_trim _ _ _ _ fetched t hne ht] at hr
        have hflags : ¬ (t.1 = false ∧
            (dropBoundary
              (decodeCursor d (d.GetLimitAndSortOrderAndCursor first last after before).2.2)
              fetched).1 = false) := by
          rintro ⟨h1, h2⟩
          have e1 := trimToLimit_untrimmed _ _ t ht h1
          have e2 := dropBoundary_kept _ fetched h2
          have ht2 : t.2 = [] := by
            split at hr <;> (cases hr; exact hempty)
          rw [e1, e2] at ht2
          exact hne (by rw [ht2]; rfl)
        have hright : ¬ ∀ f, (Except.ok fetched : Except StoreError (List Comment)) = .ok f →
            f = [] := fun h => hne (by rw [h fetched rfl]; rfl)
        split at hr
        · cases hr
          simp only at hempty
          rw [hempty, pageCursors_nil]
          exact ⟨rfl, rfl, ⟨fun h => absurd ⟨h.2, h.1⟩ hflags, fun h => absurd h hright⟩⟩
        · cases hr
          simp only at hempty
          rw [hempty, pageCursors_nil]
          exact ⟨rfl, rfl, ⟨fun h => absurd h hflags, fun h => absurd h hright⟩⟩

/-- Witness of C9: `first = 1`, `after` naming the only record of the store. -/
theorem GetComments_empty_page_witness :
    GetComments (specDeps [mkComment "a" 1]) [] none (some "1|a") none (some 1) none =
      .returned ⟨[], false, true, "", "", none⟩ ∧
    (⟨[], false, true, "", "", none⟩ : Result).firstCursor = "" ∧
    (⟨[], false, true, "", "", none⟩ : Result).lastCursor = "" ∧
    (((⟨[], false, true, "", "", none⟩ : Result).hasNextPage = false ∧
        (⟨[], false, true, "", "", none⟩ : Result).hasPreviousPage = false) ↔
      ∀ fetched, rangeRead (specDeps [mkComment "a" 1]) [] none (some "1|a") none (some 1) none
        = .ok fetched → fetched = []) :=
  ⟨by decide,
    GetComments_empty_page (specDeps [mkComment "a" 1]) [] none (some "1|a") none (some 1) none
      ⟨[], false, true, "", "", none⟩ (by decide) rfl⟩

/-- C9 as stated fails: over a store holding only record `a`, the request
`first = 1`, `after = cursor(a, 1)` returns no records and yet
`hasPreviousPage = true`; and `first = 0` returns no records with
`hasNextPage = true`. -/
theorem GetComments_empty_page_counterexample :
    GetComments (specDeps [mkComment "a" 1]) [] none (some "1|a") none (some 1) none =
      .returned ⟨[], false, true, "", "", none⟩ ∧
    GetComments (specDeps [mkComment "a" 1]) [] none none none (some 0) none =
      .returned ⟨[], true, false, "", "", none⟩ := by
  decide

/-- C10, as the code behaves: for every non-empty fetched sequence `x :: rest`,
a returning call sets the page-behind flag (`hasPreviousPage` forward,
`hasNextPage` backward) and drops `x` if and only if a boundary cursor was
supplied and decoded and `x` has the id of the boundary; the timestamp of the
boundary is not compared. The returned records are then a prefix of `rest`,
and otherwise a prefix of `x :: rest`. With a page size `0 <= limit` such that
`limit + 2` is an `int64` the call does return. -/
theorem GetComments_boundary_drop (d : Deps) (ids : List String) (story : Option Story)
    (after before : Option String) (first last : Option Int) (limit order : Int)
    (cursorStr : Option String) (x : Comment) (rest : List Comment)
    (hreq : d.GetLimitAndSortOrderAndCursor first last after before = (limit, order, cursorStr))
    (hfind : rangeRead d ids story after before first last = .ok (x :: rest)) :
    (∀ r, GetComments d ids story after before first last = .returned r →
      (r.pageBehind order = true ↔ ∃ b, decodeCursor d cursorStr = some b ∧ x.Id = b.ID) ∧
      ((∃ b, decodeCursor d cursorStr = some b ∧ x.Id = b.ID) → r.comments <+: rest) ∧
      ((¬ ∃ b, decodeCursor d cursorStr = some b ∧ x.Id = b.ID) → r.comments <+: x :: rest)) ∧
    (0 ≤ limit → limit + 2 < 9223372036854775808 →
      ∃ r, GetComments d ids story after before first last = .returned r) := by
  rw [GetComments_eq_finishPage d ids story after before first last _ hfind, hreq]
  have hne : (x :: rest).length ≠ 0 := by simp
  constructor
  · intro r hr
    cases ht : trimToLimit (wrap64 (limit + 2))
        (dropBoundary (decodeCursor d cursorStr) (x :: rest)).2 with
    | none =>
      rw [finishPage_of_panic _ _ _ _ _ hne ht] at hr
      cases hr
    | some t =>
      rw [finishPage_of_trim _ _ _ _ _ t hne ht] at hr
      have hpre := trimToLimit_initial_segment _ _ t ht
      by_cases hm : ∃ b, decodeCursor d cursorStr = some b ∧ x.Id = b.ID
      · rw [dropBoundary_of_match _ x rest hm] at hr hpre
        have hc : r.comments = t.2 ∧ r.pageBehind order = true := by
          by_cases ho : order < 0
          · rw [if_pos ho] at hr
            cases hr
            exact ⟨rfl, by simp [Result.pageBehind, ho]⟩
          · rw [if_neg ho] at hr
            cases hr
            exact ⟨rfl, by simp [Result.pageBehind, ho]⟩
        rw [hc.1]
        exact ⟨⟨fun _ => hm, fun _ => hc.2⟩, fun _ => hpre, fun h => absurd hm h⟩
      · rw [dropBoundary_of_no_match _ x rest hm] at hr hpre
        have hc : r.comments = t.2 ∧ r.pageBehind order = false := by
          by_cases ho : order < 0
          · rw [if_pos ho] at hr
            cases hr
            exact ⟨rfl, by simp [Result.pageBehind, ho]⟩
          · rw [if_neg ho] at hr
            cases hr
            exact ⟨rfl, by simp [Result.pageBehind, ho]⟩
        rw [hc.1]
        refine ⟨⟨fun h => ?_, fun h => absurd h hm⟩, fun h => absurd h hm, fun _ => hpre⟩
        rw [hc.2] at h
        cases h
  · intro h0 hhi
    have hret := finishPage_returns d.NewCursorString limit order (decodeCursor d cursorStr)
      (x :: rest) h0 hhi
    revert hret
    cases finishPage d.NewCursorString (wrap64 (limit + 2)) order (decodeCursor d cursorStr)
      (x :: rest) with
    | returned r => exact fun _ => ⟨r, rfl⟩
    | panicked => exact fun h => absurd rfl h

/-- Witness of C10: `first = 2`, `after = cursor(a, 5)` over a store whose
record `a` was created at instant `3`. -/
theorem GetComments_boundary_drop_witness :
    (∀ r, GetComments (specDeps [mkComment "a" 3, mkComment "b" 4]) [] none (some "5|a") none
        (some 2) none = .returned r →
      (r.pageBehind 1 = true ↔
        ∃ b, decodeCursor (specDeps [mkComment "a" 3, mkComment "b" 4]) (some "5|a") = some b ∧
          (mkComment "a" 3).Id = b.ID) ∧
      ((∃ b, decodeCursor (specDeps [mkComment "a" 3, mkComment "b" 4]) (some "5|a") = some b ∧
          (mkComment "a" 3).Id = b.ID) → r.comments <+: []) ∧
      ((¬ ∃ b, decodeCursor (specDeps [mkComment "a" 3, mkComment "b" 4]) (some "5|a") = some b ∧
          (mkComment "a" 3).Id = b.ID) → r.comments <+: [mkComment "a" 3])) ∧
    ((0 : Int) ≤ 2 → (2 : Int) + 2 < 9223372036854775808 →
      ∃ r, GetComments (specDeps [mkComment "a" 3, mkComment "b" 4]) [] none (some "5|a") none
        (some 2) none = .returned r) :=
  GetComments_boundary_drop (specDeps [mkComment "a" 3, mkComment "b" 4]) [] none (some "5|a")
    none (some 2) none 2 1 (some "5|a") (mkComment "a" 3) [] rfl rfl

/-- C10 as stated fails: the boundary `(a, 5)` differs in timestamp from the
first fetched record `(a, 3)`, and the call still sets `hasPreviousPage` and
drops that record. -/
theorem GetComments_boundary_drop_counterexample :
    FromString "5|a" = some ⟨"a", 5⟩ ∧
    (mkComment "a" 3).TimeCreated ≠ 5 ∧
    GetComments (specDeps [mkComment "a" 3, mkComment "b" 4]) [] none (some "5|a") none
        (some 2) none =
      .returned ⟨[], false, true, "", "", none⟩ := by
  decide

end Backend
